import Mathlib

/-!
Verification of `subtitle-matcher-gui` (Python) against its specification.

Python strings are embedded as `List Char`.  Each definition below is a
shallow embedding of a function (or a stage of a function) of the
repository's source; the file then states and proves the specification
claims as theorems about those definitions.

Source files embedded:
  * `src/gemini_client.py` — `GeminiClient._clean_srt_response` and the
    response-length guard of `GeminiClient.align_subtitles`;
  * `src/prompt_template.py` — `get_alignment_prompt`;
  * `src/utils/file_ops.py` — `validate_srt_format`;
  * `src/gui.py` — the default output-path derivation of
    `_process_matching` / `_browse_input_file` (via `pathlib`).
-/

namespace SubtitleMatcher

/-- The characters for which Python's `str.isspace()` holds (the set
`str.strip()` removes).  Note U+FEFF (the BOM) is *not* whitespace. -/
def pyIsSpace (c : Char) : Bool :=
  (0x09 ≤ c.toNat && c.toNat ≤ 0x0d) ||
  (0x1c ≤ c.toNat && c.toNat ≤ 0x1f) ||
  c.toNat == 0x20 || c.toNat == 0x85 || c.toNat == 0xa0 ||
  c.toNat == 0x1680 ||
  (0x2000 ≤ c.toNat && c.toNat ≤ 0x200a) ||
  c.toNat == 0x2028 || c.toNat == 0x2029 ||
  c.toNat == 0x202f || c.toNat == 0x205f || c.toNat == 0x3000

/-- Python `s.lstrip()` (no argument): drop leading whitespace. -/
def lstrip (s : List Char) : List Char := s.dropWhile pyIsSpace

/-- Python `s.rstrip()` (no argument): drop trailing whitespace. -/
def rstrip (s : List Char) : List Char := (s.reverse.dropWhile pyIsSpace).reverse

/-- Python `s.strip()` (no argument): drop whitespace at both ends. -/
def strip (s : List Char) : List Char := rstrip (lstrip s)

/-- Python `s.lstrip('﻿')`: drop leading BOM characters
(`gemini_client.py`, step 1 of `_clean_srt_response`). -/
def dropBom (s : List Char) : List Char := s.dropWhile (fun c => c == '﻿')

/-- Python `s.replace('\r\n', '\n')`: left-to-right non-overlapping
replacement (`gemini_client.py`, step 2 of `_clean_srt_response`). -/
def replaceCRLF : List Char → List Char
  | '\r' :: '\n' :: rest => '\n' :: replaceCRLF rest
  | c :: rest => c :: replaceCRLF rest
  | [] => []

/-- Python `s.replace('```', '')`: left-to-right non-overlapping removal of
every triple-backtick occurrence (`gemini_client.py`, step 4, second half). -/
def removeTick3 : List Char → List Char
  | '`' :: '`' :: '`' :: rest => removeTick3 rest
  | c :: rest => c :: removeTick3 rest
  | [] => []

/-- A lowercase ASCII letter, the character class `[a-z]` of the
code-fence regex. -/
def isLowerAZ (c : Char) : Bool := 'a' ≤ c && c ≤ 'z'

/-- Split the string at the first occurrence of a newline followed by three
backticks (the closing part `\n\x60\x60\x60` of the fence regex, reached by
the lazy group `(.*?)` with `re.DOTALL`): returns the text before the
occurrence and the text after it, or `none` if there is no occurrence. -/
def findClose : List Char → Option (List Char × List Char)
  | '\n' :: '`' :: '`' :: '`' :: rest => some ([], rest)
  | c :: rest =>
      match findClose rest with
      | some (b, r) => some (c :: b, r)
      | none => none
  | [] => none

/-- Try to match the regex `\x60\x60\x60[a-z]*\n(.*?)\n\x60\x60\x60`
(with `re.DOTALL`) at the start of the string.  On success returns the
captured group 1 (the fenced body, which is the replacement text of the
`re.sub`) and the rest of the string after the whole match. -/
def matchFenceAt : List Char → Option (List Char × List Char)
  | '`' :: '`' :: '`' :: t =>
      match t.dropWhile isLowerAZ with
      | '\n' :: u =>
          match findClose u with
          | some (body, rest) => some (body, rest)
          | none => none
      | _ => none
  | _ => none

/-- Scanner for `re.sub(r'\x60\x60\x60[a-z]*\n(.*?)\n\x60\x60\x60', r'\1',
cleaned, flags=re.DOTALL)`: at each position try the pattern; on a match
emit the captured body and resume after the match, otherwise emit the
character and move on.  The fuel argument bounds the recursion; every step
consumes at least one character, so fuel = length of the string suffices. -/
def fencesGo : Nat → List Char → List Char
  | 0, s => s
  | _ + 1, [] => []
  | n + 1, c :: rest =>
      match matchFenceAt (c :: rest) with
      | some (body, after) => body ++ fencesGo n after
      | none => c :: fencesGo n rest

/-- Step 4 (first half) of `_clean_srt_response`: remove paired markdown
code fences, keeping their contents. -/
def subFences (s : List Char) : List Char := fencesGo s.length s

/-- Python `s.split('\n')`. -/
def splitNl : List Char → List (List Char)
  | [] => [[]]
  | '\n' :: rest => [] :: splitNl rest
  | c :: rest =>
      match splitNl rest with
      | l :: ls => (c :: l) :: ls
      | [] => [[c]]

/-- Python `'\n'.join(lines)`. -/
def joinNl : List (List Char) → List Char
  | [] => []
  | [l] => l
  | l :: ls => l ++ '\n' :: joinNl ls

/-- The MAPPING-header test `re.match(r'^#\s*mapping\s*$', line_stripped,
re.IGNORECASE)`, modelled on an already-stripped line (as in the code,
where it is applied to `line.strip()`): a mandatory `#`, optional
whitespace, then the word `mapping` case-insensitively. -/
def matchMapping (s : List Char) : Bool :=
  match s with
  | '#' :: rest => (rest.dropWhile pyIsSpace).map Char.toLower == "mapping".toList
  | _ => false

/-- The purely-numeric-line test `re.match(r'^\d+$', line_stripped)`:
nonempty and all decimal digits. -/
def isDigitLine (s : List Char) : Bool := !s.isEmpty && s.all Char.isDigit

/-- Match `\d{2}:\d{2}:\d{2},\d{3}` at the front of the string, returning
the rest on success. -/
def timeCore : List Char → Option (List Char)
  | h1 :: h2 :: ':' :: m1 :: m2 :: ':' :: s1 :: s2 :: ',' :: t1 :: t2 :: t3 :: rest =>
      if h1.isDigit && h2.isDigit && m1.isDigit && m2.isDigit &&
         s1.isDigit && s2.isDigit && t1.isDigit && t2.isDigit && t3.isDigit then
        some rest
      else none
  | _ => none

/-- The SRT-timestamp test
`re.match(r'^\d{2}:\d{2}:\d{2},\d{3}\s+-->\s+\d{2}:\d{2}:\d{2},\d{3}$',
next_line)`, applied in the code to an already-stripped line. -/
def isTimestampLine (s : List Char) : Bool :=
  match timeCore s with
  | some (c1 :: rest1) =>
      if pyIsSpace c1 then
        match rest1.dropWhile pyIsSpace with
        | '-' :: '-' :: '>' :: r3 =>
            match r3 with
            | c2 :: rest2 =>
                if pyIsSpace c2 then
                  match timeCore (rest2.dropWhile pyIsSpace) with
                  | some [] => true
                  | _ => false
                else false
            | [] => false
        | _ => false
      else false
  | _ => false

/-- The for-loop's MAPPING detection: index of the first line whose
stripped form matches the mapping header (the loop only assigns
`mapping_start` while it is `-1`). -/
def findMapIdx (ls : List (List Char)) : Option Nat :=
  ls.findIdx? (fun l => matchMapping (strip l))

/-- Scan a list of lines for the first position where a line is purely
digits (stripped) and the immediately following line is an SRT timestamp
(stripped); returns that position relative to the start of the list. -/
def srtScan : List (List Char) → Option Nat
  | l1 :: l2 :: rest =>
      if isDigitLine (strip l1) && isTimestampLine (strip l2) then some 0
      else (srtScan (l2 :: rest)).map (· + 1)
  | _ => none

/-- The for-loop's SRT-start detection: it only runs on iterations after
the mapping header was found (the `elif mapping_start >= 0` guard), so the
search starts at index `m + 1`; the `i + 1 < len(lines)` bound is the
two-element pattern of `srtScan`. -/
def findSrtIdx (ls : List (List Char)) (m : Nat) : Option Nat :=
  (srtScan (ls.drop (m + 1))).map (fun k => m + 1 + k)

/-- Step 5 of `_clean_srt_response`: split into lines, run the detection
loop, and keep `lines[srt_start:]` when both a mapping header and an SRT
start were found; otherwise (`srt_start` can only be set after
`mapping_start`, so the code's `elif srt_start >= 0` branch is
unreachable) return the text unchanged. -/
def selectSrt (t : List Char) : List Char :=
  match findMapIdx (splitNl t) with
  | none => t
  | some m =>
      match findSrtIdx (splitNl t) m with
      | none => t
      | some j => joinNl ((splitNl t).drop j)

/-- Steps 1–4 of `_clean_srt_response`: BOM removal, CRLF normalization,
strip, paired-fence removal, stray-fence removal. -/
def preClean (s : List Char) : List Char :=
  removeTick3 (subFences (strip (replaceCRLF (dropBom s))))

/-- `GeminiClient._clean_srt_response` (src/gemini_client.py): the full
normalization pipeline, ending in the final `cleaned.strip()`. -/
def clean_srt_response (s : List Char) : List Char :=
  strip (selectSrt (preClean s))

/-- The response-validation tail of `GeminiClient.align_subtitles`
(src/gemini_client.py): raise on an empty extraction (`if not
result_text`), raise on a short response (`if len(result_text) < 10`),
otherwise return the cleaned response. -/
def align_postprocess (result_text : List Char) : Except String (List Char) :=
  if result_text.isEmpty then .error "empty response"
  else if result_text.length < 10 then .error "suspiciously short response"
  else .ok (clean_srt_response result_text)

/-- Whether the string contains the arrow token `-->` (Python
`'-->' in lines[1]` in `validate_srt_format`). -/
def containsArrow : List Char → Bool
  | '-' :: '-' :: '>' :: _ => true
  | _ :: rest => containsArrow rest
  | [] => false

/-- The tail of Python's base-10 `int()` literal grammar after the first
digit: decimal digits, with single underscores allowed between digits. -/
def intDigitTail : List Char → Bool
  | [] => true
  | '_' :: c :: rest => c.isDigit && intDigitTail rest
  | ['_'] => false
  | c :: rest => c.isDigit && intDigitTail rest

/-- A digit followed by `intDigitTail`: the unsigned part of an `int()`
literal. -/
def intUnsigned : List Char → Bool
  | c :: rest => c.isDigit && intDigitTail rest
  | [] => false

/-- Whether Python `int(s)` succeeds on an already-stripped string `s`
(as in `int(lines[0].strip())` of `validate_srt_format`): an optional
sign, then digits with single underscores between them.  (Python also
accepts non-ASCII decimal digits; ASCII suffices for the inputs
considered here.) -/
def pyIntValid (s : List Char) : Bool :=
  match s with
  | '+' :: rest => intUnsigned rest
  | '-' :: rest => intUnsigned rest
  | rest => intUnsigned rest

/-- `validate_srt_format` (src/utils/file_ops.py): reject empty or
shorter-than-10 content, split the stripped content into lines, require at
least 3 lines, an integer first line, and an arrow token in the second. -/
def validate_srt_format (content : List Char) : Bool :=
  if content.isEmpty || content.length < 10 then false
  else
    match splitNl (strip content) with
    | l0 :: l1 :: _ :: _ => pyIntValid (strip l0) && containsArrow l1
    | _ => false

/-- The structural condition exactly as the CLAIM states it for
`validate_srt_format` (to be compared with the function embedded from
the source): at least 3 lines after trimming, integer first line, arrow
token in the second line — with no condition on the raw length. -/
def validate_claimed (content : List Char) : Bool :=
  match splitNl (strip content) with
  | l0 :: l1 :: _ :: _ => pyIntValid (strip l0) && containsArrow l1
  | _ => false

/-- The fixed template text of `get_alignment_prompt`
(src/prompt_template.py) before the `{original_srt}` interpolation. -/
def promptPrefix : List Char :=
  ("You are a subtitle alignment expert. Your task is to align a corrected transcript to the timing structure of an original SRT subtitle file.\n\n**INSTRUCTIONS:**\n\n1. **Match Text to Timestamps**: Match each segment of the corrected transcript to the corresponding subtitle entries in the original SRT file based on content similarity.\n\n2. **Merge When Necessary**: If multiple consecutive original subtitle entries correspond to a single continuous segment in the corrected transcript, merge them into one subtitle entry with:\n   - Start time: The earliest start time of the merged entries\n   - End time: The latest end time of the merged entries\n   - Text: The corrected transcript text for that segment\n\n3. **CRITICAL - Chinese Character Limit**:\n   - **Do not merge adjacent subtitles if the resulting Chinese character count exceeds 18 for the final single-line output.**\n   - **When merging multiple original entries into one, only merge if the final Chinese line length ≤ 18 characters; otherwise keep them as separate subtitle entries with their original time spans.**\n   - This rule takes priority over merging. If merging would exceed 18 Chinese characters, DO NOT MERGE.\n\n4. **Renumber Sequentially**: Renumber all subtitle entries starting from 1 in sequential order.\n\n5. **Preserve Timing Structure**: Maintain the timing relationships. Do not invent new timestamps.\n\n6. **Output Format**: Return ONLY valid SRT format. No explanations, no markdown code blocks, no extra text.\n\n**ORIGINAL SRT FILE:**\n```\n").toList

/-- The fixed template text between the `{original_srt}` and
`{corrected_transcript}` interpolations. -/
def promptMid : List Char :=
  ("\n```\n\n**CORRECTED TRANSCRIPT:**\n```\n").toList

/-- The fixed template text after the `{corrected_transcript}`
interpolation. -/
def promptSuffix : List Char :=
  ("\n```\n\n**OUTPUT REQUIREMENTS:**\n- Valid SRT format only\n- Sequential numbering starting from 1\n- Original timestamp structure preserved (with merging when appropriate)\n- Corrected transcript text aligned to timestamps\n- **Each subtitle line must contain ≤ 18 Chinese characters**\n- No markdown formatting, no code blocks, no explanations\n\nGenerate the aligned SRT file now:").toList

/-- `get_alignment_prompt` (src/prompt_template.py): the f-string template
with the two inputs interpolated. -/
def get_alignment_prompt (original_srt corrected_transcript : List Char) : List Char :=
  promptPrefix ++ original_srt ++ promptMid ++ corrected_transcript ++ promptSuffix

/-- `pathlib` (POSIX): the final path component — the part after the last
slash.  Modelled for already-normalized path strings (no duplicate or
trailing slashes), which is how `gui.py` receives them. -/
def pathName (p : List Char) : List Char :=
  (p.reverse.takeWhile (fun c => c != '/')).reverse

/-- `pathlib` (POSIX): `Path(p).parent` as a string — the part before the
last slash, `.` when there is no slash, `/` when the last slash is the
leading one.  Modelled for already-normalized path strings. -/
def pathParent (p : List Char) : List Char :=
  if (p.reverse.dropWhile (fun c => c != '/')).isEmpty then ['.']
  else if ((p.reverse.dropWhile (fun c => c != '/')).tail).isEmpty then ['/']
  else ((p.reverse.dropWhile (fun c => c != '/')).tail).reverse

/-- `pathlib` (POSIX): `Path(p).stem` — the final component without its
last extension.  The extension is the part from the last dot of the name,
provided that dot is neither the first nor the last character of the
name. -/
def pathStem (p : List Char) : List Char :=
  if 0 < ((pathName p).reverse.takeWhile (fun c => c != '.')).length ∧
      ((pathName p).reverse.takeWhile (fun c => c != '.')).length + 1 < (pathName p).length then
    (pathName p).take
      ((pathName p).length - 1 - ((pathName p).reverse.takeWhile (fun c => c != '.')).length)
  else pathName p

/-- `pathlib` (POSIX): `str(Path(parent) / child)` for a relative child:
joining onto `.` gives the child, joining onto a slash-terminated parent
(the root) appends directly, otherwise a slash is inserted. -/
def joinPath (parent child : List Char) : List Char :=
  if parent = ['.'] then child
  else if parent.getLast? = some '/' then parent ++ child
  else parent ++ '/' :: child

/-- The default output path of `gui.py` (`_process_matching`, also
`_browse_input_file`): `input_path_obj.parent /
f"{input_path_obj.stem}_matched.srt"`. -/
def derive_output_path (input_path : List Char) : List Char :=
  joinPath (pathParent input_path) (pathStem input_path ++ ("_matched.srt").toList)

/-! ### General helper lemmas -/

theorem not_infix_of_cons {t s : List Char} {c : Char}
    (h : ¬ t <:+: c :: s) : ¬ t <:+: s :=
  fun h2 => h (List.infix_cons h2)

theorem dropBom_eq_self {s : List Char} (h : s.head? ≠ some '﻿') :
    dropBom s = s := by
  cases s with
  | nil => rfl
  | cons c t =>
      simp only [List.head?_cons, ne_eq, Option.some.injEq] at h
      simp [dropBom, List.dropWhile_cons, h]

theorem replaceCRLF_eq_self {s : List Char} (h : ¬ ['\r', '\n'] <:+: s) :
    replaceCRLF s = s := by
  induction s using replaceCRLF.induct with
  | case1 rest => exact absurd ⟨[], rest, rfl⟩ h
  | case2 c rest hne ih =>
      rw [replaceCRLF.eq_2 c rest hne, ih (not_infix_of_cons h)]
  | case3 => rfl

theorem removeTick3_eq_self {s : List Char} (h : ¬ ['`', '`', '`'] <:+: s) :
    removeTick3 s = s := by
  induction s using removeTick3.induct with
  | case1 rest => exact absurd ⟨[], rest, rfl⟩ h
  | case2 c rest hne ih =>
      rw [removeTick3.eq_2 c rest hne, ih (not_infix_of_cons h)]
  | case3 => rfl

theorem matchFenceAt_eq_none {s : List Char} (h : ¬ ['`', '`', '`'] <+: s) :
    matchFenceAt s = none := by
  rw [matchFenceAt.eq_def]
  split
  · rename_i t
    exact absurd ⟨t, rfl⟩ h
  · rfl

theorem prefix_of_matchFenceAt {s : List Char} {p : List Char × List Char}
    (h : matchFenceAt s = some p) : ['`', '`', '`'] <+: s := by
  by_contra hn
  rw [matchFenceAt_eq_none hn] at h
  exact Option.noConfusion h

theorem fencesGo_eq_self {n : Nat} {s : List Char}
    (h : ¬ ['`', '`', '`'] <:+: s) : fencesGo n s = s := by
  induction n, s using fencesGo.induct with
  | case1 s => rfl
  | case2 n => rfl
  | case3 n c rest b r hm ih =>
      exact absurd ((prefix_of_matchFenceAt hm).isInfix) h
  | case4 n c rest hm ih =>
      simp only [fencesGo, hm]
      rw [ih (not_infix_of_cons h)]

theorem subFences_eq_self {s : List Char} (h : ¬ ['`', '`', '`'] <:+: s) :
    subFences s = s := fencesGo_eq_self h

/-! ### `removeTick3` leaves no triple backtick -/

theorem removeTick3_head_ne {r : List Char} (h : ¬ ['`'] <+: r) :
    ¬ ['`'] <+: removeTick3 r := by
  cases r with
  | nil => simp [removeTick3]
  | cons c t =>
      have hc : ¬ ('`' : Char) = c := fun he => h (List.cons_prefix_cons.mpr ⟨he, List.nil_prefix⟩)
      rw [removeTick3.eq_2 c t (fun r1 h1 _ => hc h1.symm)]
      intro hp
      exact hc (List.cons_prefix_cons.mp hp).1

theorem removeTick3_two_ne {r : List Char} (h : ¬ ['`', '`'] <+: r) :
    ¬ ['`', '`'] <+: removeTick3 r := by
  cases r with
  | nil => simp [removeTick3]
  | cons c t =>
      by_cases hc : c = '`'
      · subst hc
        have ht : ¬ ['`'] <+: t :=
          fun hp => h (List.cons_prefix_cons.mpr ⟨rfl, hp⟩)
        have hne : ∀ r1 : List Char, ('`' : Char) = '`' → t = '`' :: '`' :: r1 → False := by
          intro r1 _ hteq
          exact ht ⟨'`' :: r1, by rw [hteq]; rfl⟩
        rw [removeTick3.eq_2 _ _ hne]
        intro hp
        exact removeTick3_head_ne ht (List.cons_prefix_cons.mp hp).2
      · rw [removeTick3.eq_2 c t (fun r1 h1 _ => hc h1)]
        intro hp
        exact hc (List.cons_prefix_cons.mp hp).1.symm

theorem removeTick3_no_triple (s : List Char) :
    ¬ ['`', '`', '`'] <:+: removeTick3 s := by
  induction s using removeTick3.induct with
  | case1 rest ih => rw [removeTick3.eq_1]; exact ih
  | case2 c rest hne ih =>
      rw [removeTick3.eq_2 c rest hne]
      intro hinf
      rcases List.infix_cons_iff.mp hinf with hpre | hinf2
      · rcases List.cons_prefix_cons.mp hpre with ⟨hc, hp2⟩
        have hrest : ¬ ['`', '`'] <+: rest := by
          rintro ⟨r1, hr⟩
          exact hne r1 hc.symm (by rw [← hr]; rfl)
        exact removeTick3_two_ne hrest hp2
      · exact ih hinf2
  | case3 => simp [removeTick3]

/-! ### `strip` is idempotent and shrinking -/

theorem dropWhile_self_idem (p : Char → Bool) (l : List Char) :
    (l.dropWhile p).dropWhile p = l.dropWhile p := by
  cases h : l.dropWhile p with
  | nil => simp
  | cons a t =>
      have hh := List.head?_dropWhile_not p l
      rw [h] at hh
      simp only [List.head?_cons, Option.some.injEq, forall_eq'] at hh
      rw [List.dropWhile_cons_of_neg (by simp [hh])]

theorem lstrip_of_head {s : List Char}
    (h : ∀ a, s.head? = some a → pyIsSpace a = false) : lstrip s = s := by
  cases s with
  | nil => rfl
  | cons a t =>
      exact List.dropWhile_cons_of_neg (by simp [h a rfl])

theorem head?_of_isPref {v w : List Char} (h : v <+: w) (hv : v ≠ []) :
    w.head? = v.head? := by
  rcases h with ⟨u, hu⟩
  cases v with
  | nil => exact absurd rfl hv
  | cons a t => rw [← hu]; rfl

theorem rstrip_isPref (s : List Char) : rstrip s <+: s := by
  have h := List.dropWhile_suffix (l := s.reverse) pyIsSpace
  have h2 := List.reverse_prefix.mpr h
  rwa [List.reverse_reverse] at h2

theorem head_lstrip_not_space {s : List Char} {a : Char}
    (h : (lstrip s).head? = some a) : pyIsSpace a = false := by
  have hh := List.head?_dropWhile_not pyIsSpace s
  rw [show s.dropWhile pyIsSpace = lstrip s from rfl, h] at hh
  simpa using hh

theorem lstrip_rstrip_lstrip (s : List Char) :
    lstrip (rstrip (lstrip s)) = rstrip (lstrip s) := by
  apply lstrip_of_head
  intro a ha
  have hne : rstrip (lstrip s) ≠ [] := by
    intro hnil
    rw [hnil] at ha
    exact Option.noConfusion ha
  apply head_lstrip_not_space (s := s)
  rw [head?_of_isPref (rstrip_isPref (lstrip s)) hne]
  exact ha

theorem rstrip_rstrip (s : List Char) : rstrip (rstrip s) = rstrip s := by
  unfold rstrip
  rw [List.reverse_reverse, dropWhile_self_idem]

theorem strip_strip (s : List Char) : strip (strip s) = strip s := by
  unfold strip
  rw [lstrip_rstrip_lstrip, rstrip_rstrip]

theorem strip_infix (s : List Char) : strip s <:+: s := by
  rcases rstrip_isPref (lstrip s) with ⟨t1, h1⟩
  rcases List.dropWhile_suffix (l := s) pyIsSpace with ⟨t2, h2⟩
  refine ⟨t2, t1, ?_⟩
  have h1' : strip s ++ t1 = lstrip s := h1
  rw [List.append_assoc, h1']
  exact h2

/-! ### `splitNl` and `joinNl` -/

theorem splitNl_ne_nil (s : List Char) : splitNl s ≠ [] := by
  induction s using splitNl.induct with
  | case1 => simp [splitNl]
  | case2 rest ih => simp [splitNl]
  | case3 c rest hne l ls hsp ih => simp [splitNl, hne, hsp]
  | case4 c rest hne hsp ih => simp [splitNl, hne, hsp]

theorem joinNl_cons (l : List Char) (ls : List (List Char)) (h : ls ≠ []) :
    joinNl (l :: ls) = l ++ '\n' :: joinNl ls := by
  cases ls with
  | nil => exact absurd rfl h
  | cons a t => rfl

theorem joinNl_splitNl (s : List Char) : joinNl (splitNl s) = s := by
  induction s using splitNl.induct with
  | case1 => rfl
  | case2 rest ih =>
      rw [splitNl, joinNl_cons _ _ (splitNl_ne_nil rest), ih]
      rfl
  | case3 c rest hne l ls hsp ih =>
      rw [splitNl.eq_3 c rest hne, hsp]
      rw [hsp] at ih
      cases ls with
      | nil =>
          have hl : l = rest := by simpa [joinNl] using ih
          simp [joinNl, hl]
      | cons a t =>
          rw [joinNl_cons l (a :: t) (by simp)] at ih
          rw [joinNl_cons (c :: l) (a :: t) (by simp), ← ih]
          simp
  | case4 c rest hne hsp ih => exact absurd hsp (splitNl_ne_nil rest)

theorem joinNl_suffix_cons (l : List Char) (ls : List (List Char)) :
    joinNl ls <:+ joinNl (l :: ls) := by
  cases ls with
  | nil => simp [joinNl]
  | cons a t =>
      rw [joinNl_cons l (a :: t) (by simp)]
      exact ⟨l ++ ['\n'], by simp⟩

theorem joinNl_drop_suffix (j : Nat) (ls : List (List Char)) :
    joinNl (ls.drop j) <:+ joinNl ls := by
  induction j generalizing ls with
  | zero => simp
  | succ j ih =>
      cases ls with
      | nil => simp
      | cons l t =>
          rw [List.drop_succ_cons]
          exact (ih t).trans (joinNl_suffix_cons l t)

theorem selectSrt_suffix (t : List Char) : selectSrt t <:+ t := by
  unfold selectSrt
  split
  · exact List.suffix_refl t
  · split
    · exact List.suffix_refl t
    · rename_i m hm j hj
      have h := joinNl_drop_suffix j (splitNl t)
      rwa [joinNl_splitNl] at h

/-! ### The cleaned response never contains a triple backtick -/

theorem clean_no_triple (s : List Char) :
    ¬ ['`', '`', '`'] <:+: clean_srt_response s := by
  intro h
  have h2 : ['`', '`', '`'] <:+: removeTick3 (subFences (strip (replaceCRLF (dropBom s)))) := by
    have hs := strip_infix (selectSrt (preClean s))
    have hsel := (selectSrt_suffix (preClean s)).isInfix
    exact (h.trans (hs.trans hsel))
  exact removeTick3_no_triple _ h2

/-! ### Characterization of the SRT-start scan -/

theorem srtScan_eq_some :
    ∀ (L : List (List Char)) (k : Nat) (hk : k + 1 < L.length),
      isDigitLine (strip L[k]) = true →
      isTimestampLine (strip L[k + 1]) = true →
      (∀ i (hi : i + 1 < L.length), i < k →
        isDigitLine (strip L[i]) = false ∨
        isTimestampLine (strip L[i + 1]) = false) →
      srtScan L = some k := by
  intro L
  induction L using srtScan.induct with
  | case1 l1 l2 rest hcond =>
      intro k hk hd ht hmin
      cases k with
      | zero => simp [srtScan, hcond]
      | succ k2 =>
          exfalso
          have hlen : 0 + 1 < (l1 :: l2 :: rest).length := by simp
          rcases hmin 0 hlen (Nat.succ_pos k2) with h | h <;>
            simp only [List.getElem_cons_zero, List.getElem_cons_succ] at h <;>
            simp [h] at hcond
  | case2 l1 l2 rest hcond ih =>
      intro k hk hd ht hmin
      cases k with
      | zero =>
          exfalso
          simp only [List.getElem_cons_zero, List.getElem_cons_succ] at hd ht
          simp [hd, ht] at hcond
      | succ k2 =>
          rw [srtScan, if_neg (by simp [hcond])]
          have hk2 : k2 + 1 < (l2 :: rest).length := by
            simp at hk ⊢; omega
          have hrec : srtScan (l2 :: rest) = some k2 := by
            apply ih k2 hk2
            · simpa using hd
            · simpa using ht
            · intro i hi hik
              have hi1 : i + 1 + 1 < (l1 :: l2 :: rest).length := by
                simp at hi ⊢; omega
              have := hmin (i + 1) hi1 (Nat.succ_lt_succ hik)
              simpa using this
          rw [hrec]
          rfl
  | case3 L hL =>
      intro k hk hd ht hmin
      exfalso
      match L, hL with
      | [], _ => simp at hk
      | [l], _ => simp at hk
      | l1 :: l2 :: rest, hL => exact hL l1 l2 rest rfl

/-! ### Claim theorems -/

/-- C10: for every input string, the output of `_clean_srt_response`
contains no occurrence of the triple-backtick sequence: the paired-fence
removal followed by the unconditional removal of remaining markers
guarantees this on all outputs. -/
theorem C10_no_triple_backtick_in_output (s : List Char) :
    ¬ ['`', '`', '`'] <:+: clean_srt_response s :=
  clean_no_triple s

/-- C1 (the code at the claim's scenario): on input with a subtitle-start
line (digits line followed by a timestamp line) but no mapping header, the
claim says everything before the subtitle-start line is discarded; the
code, whose SRT-start detection only runs after a mapping header was found
(`elif mapping_start >= 0`), returns the text unchanged, keeping the
`Intro` prefix — the code's own `elif srt_start >= 0` branch ("Found SRT
but no MAPPING") is unreachable. -/
theorem C1_no_mapping_returns_unchanged :
    clean_srt_response ("Intro\n1\n00:00:00,000 --> 00:00:01,000\nHello").toList
      = ("Intro\n1\n00:00:00,000 --> 00:00:01,000\nHello").toList ∧
    ("Intro\n1\n00:00:00,000 --> 00:00:01,000\nHello").toList
      ≠ ("1\n00:00:00,000 --> 00:00:01,000\nHello").toList := by
  constructor
  · decide
  · decide

/-- C3 counterexample: twelve raw characters whose stripped length is 2
(under the threshold) do NOT raise — the guard tests the raw length, not
the stripped length, so the claim's "exactly when ... after stripping" is
false. -/
theorem C3_counterexample :
    (strip ("          ab").toList).length < 10 ∧
    (align_postprocess ("          ab").toList).isOk = true := by
  constructor
  · decide
  · decide

/-- C3 (amended): the guard raises exactly when the raw extracted response
text is under 10 characters, with no stripping applied before the length
test. -/
theorem C3_amended_raw_length_guard (t : List Char) :
    (align_postprocess t).isOk = false ↔ t.length < 10 := by
  unfold align_postprocess
  by_cases h1 : t.isEmpty
  · have ht : t = [] := List.isEmpty_iff.mp h1
    subst ht
    simp [Except.isOk, Except.toBool]
  · rw [if_neg h1]
    by_cases h2 : t.length < 10
    · simp [h2, Except.isOk, Except.toBool]
    · simp [h2, Except.isOk, Except.toBool]

/-- C5: when the cleaned text contains neither a mapping header line nor
any purely-digits line immediately followed by a timestamp line,
`_clean_srt_response` returns the whole cleaned text (the pipeline is a
total function, so nothing is raised). -/
theorem C5_fallback_returns_cleaned (s : List Char)
    (hmap : ∀ l ∈ splitNl (preClean s), matchMapping (strip l) = false)
    (hsrt : ∀ k (hk : k + 1 < (splitNl (preClean s)).length),
      isDigitLine (strip (splitNl (preClean s))[k]) = false ∨
      isTimestampLine (strip (splitNl (preClean s))[k + 1]) = false) :
    clean_srt_response s = strip (preClean s) := by
  have hnone : findMapIdx (splitNl (preClean s)) = none := by
    unfold findMapIdx
    rw [List.findIdx?_eq_none_iff]
    intro x hx
    exact hmap x hx
  unfold clean_srt_response selectSrt
  rw [hnone]

/-- C5 witness at a concrete input. -/
theorem C5_witness :
    clean_srt_response ("plain text, nothing special here").toList
      = strip (preClean ("plain text, nothing special here").toList) := by
  apply C5_fallback_returns_cleaned
  · decide
  · intro k hk
    have hlen : (splitNl (preClean ("plain text, nothing special here").toList)).length = 1 := by
      decide
    rw [hlen] at hk
    omega

/-- C2 counterexample: a response whose SRT section itself contains a
second mapping header line is changed again by a second normalization
pass, so the normalizer is not idempotent on all sufficiently long
inputs. -/
theorem C2_counterexample :
    10 ≤ ("# mapping\na: b\n1\n00:00:00,000 --> 00:00:01,000\n# mapping\n2\n00:00:01,000 --> 00:00:02,000\nx").toList.length ∧
    clean_srt_response (clean_srt_response ("# mapping\na: b\n1\n00:00:00,000 --> 00:00:01,000\n# mapping\n2\n00:00:01,000 --> 00:00:02,000\nx").toList)
      ≠ clean_srt_response ("# mapping\na: b\n1\n00:00:00,000 --> 00:00:01,000\n# mapping\n2\n00:00:01,000 --> 00:00:02,000\nx").toList := by
  constructor
  · decide
  · decide

/-- C2 (amended): the normalizer is idempotent on every input whose first
normalization output starts with no BOM character, contains no CRLF
sequence, and contains no mapping header line (no fence marker can remain,
by the no-triple-backtick invariant, so no second-pass fence rewriting is
possible). -/
theorem C2_amended_idempotent (x : List Char) (hlen : 10 ≤ x.length)
    (hbom : (clean_srt_response x).head? ≠ some '\uFEFF')
    (hcrlf : ¬ ['\r', '\n'] <:+: clean_srt_response x)
    (hmap : ∀ l ∈ splitNl (clean_srt_response x), matchMapping (strip l) = false) :
    clean_srt_response (clean_srt_response x) = clean_srt_response x := by
  have hnt : ¬ ['`', '`', '`'] <:+: clean_srt_response x := clean_no_triple x
  have hstrip : strip (clean_srt_response x) = clean_srt_response x := by
    unfold clean_srt_response
    exact strip_strip _
  have h1 : dropBom (clean_srt_response x) = clean_srt_response x := dropBom_eq_self hbom
  have h2 : replaceCRLF (clean_srt_response x) = clean_srt_response x := replaceCRLF_eq_self hcrlf
  have h4 : subFences (clean_srt_response x) = clean_srt_response x := subFences_eq_self hnt
  have h5 : removeTick3 (clean_srt_response x) = clean_srt_response x := removeTick3_eq_self hnt
  have hnone : findMapIdx (splitNl (clean_srt_response x)) = none := by
    unfold findMapIdx
    rw [List.findIdx?_eq_none_iff]
    intro l hl
    exact hmap l hl
  have hpre : preClean (clean_srt_response x) = clean_srt_response x := by
    unfold preClean
    rw [h1, h2, hstrip, h4, h5]
  have hsel : selectSrt (clean_srt_response x) = clean_srt_response x := by
    unfold selectSrt
    rw [hnone]
  conv_lhs => rw [clean_srt_response, hpre, hsel, hstrip]

/-- C2 witness at a concrete input. -/
theorem C2_witness :
    clean_srt_response (clean_srt_response ("1\n00:00:00,000 --> 00:00:01,000\nHello there").toList)
      = clean_srt_response (("1\n00:00:00,000 --> 00:00:01,000\nHello there").toList) := by
  apply C2_amended_idempotent
  · decide
  · decide
  · decide
  · decide





theorem fencesGo_nil (n : Nat) : fencesGo n [] = [] := by cases n <;> rfl

theorem findClose_append_close {b : List Char} (h : '`' ∉ b) :
    findClose (b ++ ['\n', '`', '`', '`']) = some (b, []) := by
  induction b with
  | nil => rfl
  | cons c b2 ih =>
      have hc : '`' ∉ b2 := fun hm => h (List.mem_cons_of_mem c hm)
      have hside : ∀ r1 : List Char, c = '\n' →
          b2 ++ ['\n', '`', '`', '`'] = '`' :: '`' :: '`' :: r1 → False := by
        intro r1 hcnl heq
        cases b2 with
        | nil =>
            rw [List.nil_append] at heq
            injection heq with h1 h2
            exact absurd h1 (by decide)
        | cons d b3 =>
            rw [List.cons_append] at heq
            injection heq with h1 h2
            subst h1
            exact h (List.mem_cons_of_mem c (List.mem_cons_self _ _))
      rw [List.cons_append, findClose.eq_2 c _ hside, ih hc]

theorem rstrip_append_last {u : List Char} {c : Char} (h : pyIsSpace c = false) :
    rstrip (u ++ [c]) = u ++ [c] := by
  unfold rstrip
  rw [List.reverse_append]
  simp only [List.reverse_cons, List.reverse_nil, List.nil_append, List.singleton_append]
  rw [List.dropWhile_cons_of_neg (by simp [h])]
  simp

theorem matchFence_wrap {lang body : List Char}
    (hlang : ∀ c ∈ lang, isLowerAZ c = true)
    (htick : '`' ∉ body) :
    matchFenceAt ('`' :: '`' :: '`' :: (lang ++ '\n' :: (body ++ ['\n', '`', '`', '`'])))
      = some (body, []) := by
  rw [matchFenceAt.eq_1]
  rw [List.dropWhile_append_of_pos hlang]
  rw [List.dropWhile_cons_of_neg (by decide)]
  split
  · rename_i u heq
    injection heq with h1 h2
    subst h2
    rw [findClose_append_close htick]
  · rename_i hne
    exact absurd rfl (hne (body ++ ['\n', '`', '`', '`']))




/-- C6: an input consisting of valid subtitle text wrapped in
triple-backtick code fences (with or without a lowercase language tag on
the opening fence) normalizes to the unwrapped content, with no backtick
characters remaining in the output.  "Valid subtitle text" is captured by
the hypotheses: no backtick, no carriage return, no mapping header line,
and no surrounding whitespace. -/
theorem C6_fence_unwrap (lang body : List Char)
    (hlang : ∀ c ∈ lang, isLowerAZ c = true)
    (htick : '`' ∉ body)
    (hcr : '\r' ∉ body)
    (hmap : ∀ l ∈ splitNl body, matchMapping (strip l) = false)
    (hstrip : strip body = body) :
    clean_srt_response ('`' :: '`' :: '`' :: (lang ++ '\n' :: (body ++ ['\n', '`', '`', '`'])))
      = body ∧
    '`' ∉ clean_srt_response ('`' :: '`' :: '`' :: (lang ++ '\n' :: (body ++ ['\n', '`', '`', '`']))) := by
  have h1 : dropBom ('`' :: '`' :: '`' :: (lang ++ '\n' :: (body ++ ['\n', '`', '`', '`'])))
      = '`' :: '`' :: '`' :: (lang ++ '\n' :: (body ++ ['\n', '`', '`', '`'])) :=
    dropBom_eq_self (by simp only [List.head?_cons, ne_eq, Option.some.injEq]; decide)
  have hcrS : ¬ ['\r', '\n'] <:+: ('`' :: '`' :: '`' :: (lang ++ '\n' :: (body ++ ['\n', '`', '`', '`']))) := by
    intro hinf
    have hmem : '\r' ∈ ('`' :: '`' :: '`' :: (lang ++ '\n' :: (body ++ ['\n', '`', '`', '`']))) :=
      hinf.mem (List.mem_cons_self _ _)
    simp only [List.mem_cons, List.mem_append] at hmem
    rcases hmem with h | h | h | h | h | h | h
    · exact absurd h (by decide)
    · exact absurd h (by decide)
    · exact absurd h (by decide)
    · exact absurd (hlang _ h) (by decide)
    · exact absurd h (by decide)
    · exact hcr h
    · exact absurd h (by decide)
  have h2 : replaceCRLF ('`' :: '`' :: '`' :: (lang ++ '\n' :: (body ++ ['\n', '`', '`', '`'])))
      = '`' :: '`' :: '`' :: (lang ++ '\n' :: (body ++ ['\n', '`', '`', '`'])) :=
    replaceCRLF_eq_self hcrS
  have h3 : strip ('`' :: '`' :: '`' :: (lang ++ '\n' :: (body ++ ['\n', '`', '`', '`'])))
      = '`' :: '`' :: '`' :: (lang ++ '\n' :: (body ++ ['\n', '`', '`', '`'])) := by
    have hl : lstrip ('`' :: '`' :: '`' :: (lang ++ '\n' :: (body ++ ['\n', '`', '`', '`'])))
        = '`' :: '`' :: '`' :: (lang ++ '\n' :: (body ++ ['\n', '`', '`', '`'])) := by
      apply lstrip_of_head
      intro a ha
      simp only [List.head?_cons, Option.some.injEq] at ha
      rw [← ha]
      decide
    have hs2 : ('`' :: '`' :: '`' :: (lang ++ '\n' :: (body ++ ['\n', '`', '`', '`'])))
        = ('`' :: '`' :: '`' :: (lang ++ '\n' :: (body ++ ['\n', '`', '`']))) ++ ['`'] := by
      simp
    have hr : rstrip ('`' :: '`' :: '`' :: (lang ++ '\n' :: (body ++ ['\n', '`', '`', '`'])))
        = '`' :: '`' :: '`' :: (lang ++ '\n' :: (body ++ ['\n', '`', '`', '`'])) := by
      rw [hs2, rstrip_append_last (by decide)]
    unfold strip
    rw [hl, hr]
  have h4 : subFences ('`' :: '`' :: '`' :: (lang ++ '\n' :: (body ++ ['\n', '`', '`', '`'])))
      = body := by
    unfold subFences
    simp only [List.length_cons]
    rw [fencesGo.eq_3]
    rw [matchFence_wrap hlang htick]
    dsimp only
    rw [fencesGo_nil]
    simp
  have h5 : removeTick3 body = body :=
    removeTick3_eq_self (fun hinf => htick (hinf.mem (List.mem_cons_self _ _)))
  have h6 : selectSrt body = body := by
    have hnone : findMapIdx (splitNl body) = none := by
      unfold findMapIdx
      rw [List.findIdx?_eq_none_iff]
      exact hmap
    unfold selectSrt
    rw [hnone]
  have hmain : clean_srt_response ('`' :: '`' :: '`' :: (lang ++ '\n' :: (body ++ ['\n', '`', '`', '`'])))
      = body := by
    unfold clean_srt_response preClean
    rw [h1, h2, h3, h4, h5, h6, hstrip]
  exact ⟨hmain, by rw [hmain]; exact htick⟩

/-- C6 witness at a concrete fenced input. -/
theorem C6_witness :
    clean_srt_response ('`' :: '`' :: '`' :: (("srt").toList ++ '\n' ::
        (("1\n00:00:00,000 --> 00:00:01,000\nHello").toList ++ ['\n', '`', '`', '`'])))
      = ("1\n00:00:00,000 --> 00:00:01,000\nHello").toList ∧
    '`' ∉ clean_srt_response ('`' :: '`' :: '`' :: (("srt").toList ++ '\n' ::
        (("1\n00:00:00,000 --> 00:00:01,000\nHello").toList ++ ['\n', '`', '`', '`']))) :=
  C6_fence_unwrap _ _ (by decide) (by decide) (by decide) (by decide) (by decide)

/-- C7: the prompt builder is a pure function of its two arguments — equal
input pairs give byte-identical prompts — and both input texts appear
verbatim and completely (as contiguous substrings) in the output. -/
theorem C7_prompt_pure_and_verbatim (a b a2 b2 : List Char)
    (ha : a = a2) (hb : b = b2) :
    get_alignment_prompt a b = get_alignment_prompt a2 b2 ∧
    a <:+: get_alignment_prompt a b ∧
    b <:+: get_alignment_prompt a b := by
  subst ha
  subst hb
  refine ⟨rfl, ⟨promptPrefix, promptMid ++ b ++ promptSuffix, ?_⟩,
    ⟨promptPrefix ++ a ++ promptMid, promptSuffix, ?_⟩⟩ <;>
    simp [get_alignment_prompt]

/-- C7 witness at a concrete input pair. -/
theorem C7_witness :
    get_alignment_prompt ("1").toList ("one").toList
      = get_alignment_prompt ("1").toList ("one").toList ∧
    ("1").toList <:+: get_alignment_prompt ("1").toList ("one").toList ∧
    ("one").toList <:+: get_alignment_prompt ("1").toList ("one").toList :=
  C7_prompt_pure_and_verbatim _ _ _ _ rfl rfl

/-- C8 counterexample: eight characters of structurally valid content —
the claim's three conditions all hold — are rejected by the code, because
`validate_srt_format` also requires `len(content) >= 10`, which the claim
omits. -/
theorem C8_counterexample :
    validate_claimed ("1\n-->\nab").toList = true ∧
    validate_srt_format ("1\n-->\nab").toList = false := by
  constructor
  · decide
  · decide

/-- C8 (amended): `validate_srt_format` returns true exactly when the raw
content is at least 10 characters long AND the claim's structural
condition (three lines after trimming, integer first line, arrow in the
second line) holds. -/
theorem C8_amended_with_length_floor (content : List Char) :
    validate_srt_format content = true ↔
      10 ≤ content.length ∧ validate_claimed content = true := by
  unfold validate_srt_format validate_claimed
  by_cases h : (content.isEmpty || decide (content.length < 10)) = true
  · rw [if_pos h]
    have hlt : content.length < 10 := by
      rw [Bool.or_eq_true] at h
      rcases h with h1 | h2
      · rw [List.isEmpty_iff.mp h1]
        simp
      · exact of_decide_eq_true h2
    simp only [Bool.false_eq_true, false_iff]
    rintro ⟨h10, -⟩
    omega
  · rw [if_neg h]
    have h10 : 10 ≤ content.length := by
      rw [Bool.or_eq_true, not_or, decide_eq_true_eq] at h
      omega
    simp [h10]

theorem takeWhile_until {X Y : List Char} (h : '/' ∉ X) :
    (X ++ '/' :: Y).takeWhile (fun c => c != '/') = X := by
  induction X with
  | nil => simp [List.takeWhile_cons]
  | cons a t ih =>
      have ha : a ≠ '/' := fun he => h (he ▸ List.mem_cons_self a t)
      rw [List.cons_append, List.takeWhile_cons_of_pos (by simp [ha]),
        ih (fun hm => h (List.mem_cons_of_mem a hm))]

theorem dropWhile_until {X Y : List Char} (h : '/' ∉ X) :
    (X ++ '/' :: Y).dropWhile (fun c => c != '/') = '/' :: Y := by
  induction X with
  | nil => simp [List.dropWhile_cons]
  | cons a t ih =>
      have ha : a ≠ '/' := fun he => h (he ▸ List.mem_cons_self a t)
      rw [List.cons_append, List.dropWhile_cons_of_pos (by simp [ha]),
        ih (fun hm => h (List.mem_cons_of_mem a hm))]

/-- C9: when no output path is given, the default is derived by taking
the input filename's stem, appending `_matched.srt`, and placing the file
in the input file's directory (for a normalized input path `dir/base.srt`
with a plain `base`). -/
theorem C9_default_output_path (dir base : List Char)
    (hdir_ne : dir ≠ [])
    (hdir_dot : dir ≠ ['.'])
    (hdir_slash : dir.getLast? ≠ some '/')
    (hbase_ne : base ≠ [])
    (hbase_slash : '/' ∉ base)
    (hbase_dot : '.' ∉ base) :
    derive_output_path (dir ++ '/' :: (base ++ (".srt").toList))
      = dir ++ '/' :: (base ++ ("_matched.srt").toList) := by
  have hX : '/' ∉ (base ++ (".srt").toList).reverse := by
    intro hm
    rw [List.mem_reverse] at hm
    rcases List.mem_append.mp hm with h | h
    · exact hbase_slash h
    · exact absurd h (by decide)
  have hrev : (dir ++ '/' :: (base ++ (".srt").toList)).reverse
      = (base ++ (".srt").toList).reverse ++ '/' :: dir.reverse := by
    simp
  have hname : pathName (dir ++ '/' :: (base ++ (".srt").toList)) = base ++ (".srt").toList := by
    unfold pathName
    rw [hrev, takeWhile_until hX, List.reverse_reverse]
  have hparent : pathParent (dir ++ '/' :: (base ++ (".srt").toList)) = dir := by
    unfold pathParent
    rw [hrev, dropWhile_until hX]
    rw [if_neg (by simp)]
    rw [if_neg (by simp [hdir_ne])]
    simp
  have hsrtlist : (".srt").toList = ['.', 's', 'r', 't'] := rfl
  have hrev2 : (base ++ (".srt").toList).reverse = 't' :: 'r' :: 's' :: '.' :: base.reverse := by
    rw [hsrtlist]
    simp
  have htake : ((base ++ (".srt").toList).reverse.takeWhile (fun c => c != '.'))
      = ['t', 'r', 's'] := by
    rw [hrev2]
    rw [List.takeWhile_cons_of_pos (by decide), List.takeWhile_cons_of_pos (by decide),
      List.takeWhile_cons_of_pos (by decide), List.takeWhile_cons_of_neg (by decide)]
  have hlen : (base ++ (".srt").toList).length = base.length + 4 := by
    rw [hsrtlist]
    simp
  have hstem : pathStem (dir ++ '/' :: (base ++ (".srt").toList)) = base := by
    unfold pathStem
    rw [hname, htake, hlen]
    rw [if_pos (by
      constructor
      · decide
      · have h0 : 0 < base.length := List.length_pos.mpr hbase_ne
        have h3 : (['t', 'r', 's'] : List Char).length = 3 := rfl
        omega)]
    have harith : base.length + 4 - 1 - (['t', 'r', 's'] : List Char).length = base.length := by
      simp
    rw [harith, List.take_left]
  unfold derive_output_path
  rw [hparent, hstem]
  unfold joinPath
  rw [if_neg hdir_dot, if_neg hdir_slash]

/-- C9 witness at a concrete input path. -/
theorem C9_witness :
    derive_output_path (("/home/user").toList ++ '/' :: (("movie").toList ++ (".srt").toList))
      = ("/home/user").toList ++ '/' :: (("movie").toList ++ ("_matched.srt").toList) :=
  C9_default_output_path _ _ (by decide) (by decide) (by decide) (by decide) (by decide) (by decide)

/-- C4 counterexample: the claim's mapping header has an "optional leading
hash", but the code's regex demands the hash.  On input whose header is the
bare word `mapping`, the code detects nothing and returns the text
unchanged, mapping lines included — not the text from the digits line
onward as the claim requires. -/
theorem C4_counterexample :
    clean_srt_response ("mapping\nA -> B\n1\n00:00:00,000 --> 00:00:01,000\nHi").toList
      = ("mapping\nA -> B\n1\n00:00:00,000 --> 00:00:01,000\nHi").toList ∧
    ("mapping\nA -> B\n1\n00:00:00,000 --> 00:00:01,000\nHi").toList
      ≠ ("1\n00:00:00,000 --> 00:00:01,000\nHi").toList := by
  constructor
  · decide
  · decide

/-- C4 (amended): for text whose cleaned form has a first mapping header
line (mandatory `#`, optional whitespace, then `mapping` case-insensitively)
at line `m`, and a first subsequent digits line `j` immediately followed by
a timestamp line, normalization returns exactly the lines from `j` onward
(finally stripped); the mapping section (lines `m` to `j - 1`) is dropped
from the returned text. -/
theorem C4_mapping_split (s : List Char) (m j : Nat)
    (hm : m < (splitNl (preClean s)).length)
    (hmap : matchMapping (strip (splitNl (preClean s))[m]) = true)
    (hmfirst : ∀ i (hi : i < (splitNl (preClean s)).length), i < m →
      matchMapping (strip (splitNl (preClean s))[i]) = false)
    (hmj : m < j)
    (hj : j + 1 < (splitNl (preClean s)).length)
    (hd : isDigitLine (strip (splitNl (preClean s))[j]) = true)
    (ht : isTimestampLine (strip (splitNl (preClean s))[j + 1]) = true)
    (hfirst : ∀ i (hi : i + 1 < (splitNl (preClean s)).length), m < i → i < j →
      isDigitLine (strip (splitNl (preClean s))[i]) = false ∨
      isTimestampLine (strip (splitNl (preClean s))[i + 1]) = false) :
    clean_srt_response s = strip (joinNl ((splitNl (preClean s)).drop j)) := by
  obtain ⟨k, rfl⟩ : ∃ k, j = m + 1 + k := ⟨j - (m + 1), by omega⟩
  have hmapidx : findMapIdx (splitNl (preClean s)) = some m := by
    unfold findMapIdx
    rw [List.findIdx?_eq_some_iff_getElem]
    refine ⟨hm, by simpa using hmap, ?_⟩
    intro i hi
    have := hmfirst i (Nat.lt_trans hi hm) hi
    simp [this]
  have hscan : srtScan ((splitNl (preClean s)).drop (m + 1)) = some k := by
    have hk2 : k + 1 < ((splitNl (preClean s)).drop (m + 1)).length := by
      simp only [List.length_drop]
      omega
    refine srtScan_eq_some _ k hk2 ?_ ?_ ?_
    · rw [List.getElem_drop]
      exact hd
    · rw [List.getElem_drop]
      exact ht
    · intro i hi hik
      rw [List.getElem_drop, List.getElem_drop]
      have hi1 : (m + 1 + i) + 1 < (splitNl (preClean s)).length := by
        have hi0 := hi
        simp only [List.length_drop] at hi0
        omega
      exact hfirst (m + 1 + i) hi1 (by omega) (by omega)
  have hsrtidx : findSrtIdx (splitNl (preClean s)) m = some (m + 1 + k) := by
    unfold findSrtIdx
    rw [hscan]
    rfl
  unfold clean_srt_response selectSrt
  rw [hmapidx]
  dsimp only
  rw [hsrtidx]




/-- C4 witness at a concrete two-stage response. -/
theorem C4_witness :
    clean_srt_response ("# MAPPING\nA -> B\n1\n00:00:00,000 --> 00:00:01,000\nHello").toList
      = strip (joinNl ((splitNl (preClean
          ("# MAPPING\nA -> B\n1\n00:00:00,000 --> 00:00:01,000\nHello").toList)).drop 2)) := by
  refine C4_mapping_split _ 0 2 ?_ ?_ ?_ ?_ ?_ ?_ ?_ ?_
  · decide
  · decide
  · intro i hi h0
    exact absurd h0 (Nat.not_lt_zero i)
  · decide
  · decide
  · decide
  · decide
  · intro i hi h0 h2
    have hieq : i = 1 := by omega
    subst hieq
    left
    show isDigitLine (strip (((splitNl (preClean
      ("# MAPPING\nA -> B\n1\n00:00:00,000 --> 00:00:01,000\nHello").toList))).get
        ⟨1, by decide⟩)) = false
    decide

end SubtitleMatcher
